import Mathlib

/-!
Shallow embedding of the folding-wall strip kinematics
(src/components/FoldStrip.tsx and src/components/Scene3D.tsx).

JavaScript numbers are modelled as real numbers; `Math.sin`, `Math.cos`,
`Math.abs`, `Math.min`, `Math.max` become `Real.sin`, `Real.cos`, `|·|`,
`min`, `max`.  `THREE.MathUtils.lerp (x, y, t) = (1 - t) * x + t * y` is
embedded as `lerp` below.

The source computes a handful of values that are never used downstream
(`mouseX`, `normMouse`, `mouseInfluence`, `distToMouse`, `proximity`,
`projectedWidth` in FoldStrip.tsx lines 67-116); being dead code they have
no effect on any state and are omitted from the embedding.
-/

namespace FoldingWall

noncomputable section

open Real Filter

/-- Wall configuration: `stripCount` (`totalStrips` / `STRIP_COUNT`),
`wallWidth` (`width` / `WALL_WIDTH`), `wallHeight`, and
`globalConfig.maxFoldAngle` from Scene3D.tsx / FoldStrip.tsx props. -/
structure WallConfig where
  stripCount : ℕ
  wallWidth : ℝ
  wallHeight : ℝ
  maxFoldAngle : ℝ

/-- Source: `const stripWidth = width / totalStrips` (FoldStrip.tsx line 47). -/
def stripWidth (cfg : WallConfig) : ℝ := cfg.wallWidth / cfg.stripCount

/-- Static per-strip layout: the strip's index, its flat centered x
position, and its normalized texture window in U. -/
structure StripLayout where
  index : ℕ
  flatCenterX : ℝ
  textureOffsetU : ℝ
  textureRepeatU : ℝ

/-- Per-strip layout values computed in FoldStrip.tsx:
`initialX = -width / 2 + index * stripWidth + stripWidth / 2` (line 58),
`t.repeat.set(1 / totalStrips, 1)` (line 41) and
`t.offset.set(index / totalStrips, 0)` (line 43). -/
def mkLayout (cfg : WallConfig) (i : ℕ) : StripLayout :=
  { index := i
    flatCenterX := -cfg.wallWidth / 2 + i * stripWidth cfg + stripWidth cfg / 2
    textureOffsetU := i / cfg.stripCount
    textureRepeatU := 1 / cfg.stripCount }

/-- Scene3D.tsx builds the wall as
`Array.from({ length: STRIP_COUNT }, (_, i) => i)` mapped to `FoldStrip`
instances with ascending `index` (Scene3D.tsx lines 30-46). -/
def generate (cfg : WallConfig) : List StripLayout :=
  (List.range cfg.stripCount).map (mkLayout cfg)

/-- One frame's input: `pointer.x`, `pointer.y`,
`state.clock.getElapsedTime()` and the frame `delta` of `useFrame`. -/
structure InputSample where
  pointerX : ℝ
  pointerY : ℝ
  elapsedTime : ℝ
  frameDelta : ℝ

/-- Per-strip persistent smoothing state: `targetRotation.current`
(mirrored into `rotation.y`), `targetX.current` (mirrored into
`position.x`), `position.z` and `rotation.x` of the strip's mesh.  All
start at zero (refs initialized to 0, mesh at z = 0 with no x tilt). -/
structure StripSmoothingState where
  currentRotationY : ℝ
  currentPositionX : ℝ
  currentPositionZ : ℝ
  currentTiltX : ℝ

/-- The all-zero initial smoothing state. -/
def sZero : StripSmoothingState := ⟨0, 0, 0, 0⟩

/-- Source: `THREE.MathUtils.lerp(x, y, t) = (1 - t) * x + t * y`. -/
def lerp (x y t : ℝ) : ℝ := (1 - t) * x + t * y

/-- Source: `const dir = index % 2 === 0 ? 1 : -1` (FoldStrip.tsx line 95). -/
def dir (i : ℕ) : ℝ := if i % 2 = 0 then 1 else -1

/-- Source: `const wave = Math.sin(time * 0.5 + index * 0.1) * 0.1`
(FoldStrip.tsx line 84). -/
def wave (t : ℝ) (i : ℕ) : ℝ := Real.sin (t * 0.5 + i * 0.1) * 0.1

/-- Source: `const compression = Math.max(0, Math.min(1, Math.abs(pointer.x) * 1.5))`
(FoldStrip.tsx line 100). -/
def compression (px : ℝ) : ℝ := max 0 (min 1 (|px| * 1.5))

/-- Source: `const angle = dir * (globalConfig.maxFoldAngle * compression + (wave * 0.2))`
(FoldStrip.tsx line 102). -/
def angle (cfg : WallConfig) (i : ℕ) (inp : InputSample) : ℝ :=
  dir i * (cfg.maxFoldAngle * compression inp.pointerX +
    wave inp.elapsedTime i * 0.2)

/-- One frame of the per-strip kinematic update: the body of `useFrame`
in FoldStrip.tsx (lines 60-141).

* `targetRotation.current = lerp(targetRotation.current, angle, 10 * delta)`
  and `rotation.y = targetRotation.current` (lines 105-106);
* `absAngle = Math.abs(targetRotation.current)` (line 115) — the rotation
  already smoothed this frame;
* `newX = initialX * Math.cos(absAngle)` (lines 123-124);
* `zOffset = Math.sin(absAngle) * (stripWidth * 0.25) * dir` (line 130);
* `targetX.current = lerp(targetX.current, newX, 8 * delta)` and
  `position.x = targetX.current` (lines 133-135);
* `position.z = lerp(position.z, zOffset, 8 * delta)` (line 136);
* `rotation.x = lerp(rotation.x, pointer.y * 0.2, 5 * delta)`
  (lines 139-140). -/
def update (cfg : WallConfig) (layout : StripLayout)
    (s : StripSmoothingState) (inp : InputSample) : StripSmoothingState :=
  let newRot := lerp s.currentRotationY (angle cfg layout.index inp)
    (10 * inp.frameDelta)
  let absAngle := |newRot|
  let newX := layout.flatCenterX * Real.cos absAngle
  let zOffset := Real.sin absAngle * (stripWidth cfg * 0.25) *
    dir layout.index
  { currentRotationY := newRot
    currentPositionX := lerp s.currentPositionX newX (8 * inp.frameDelta)
    currentPositionZ := lerp s.currentPositionZ zOffset (8 * inp.frameDelta)
    currentTiltX := lerp s.currentTiltX (inp.pointerY * 0.2)
      (5 * inp.frameDelta) }

/-- Modelled from the spec: the spec's §4.2 update with interpolation
factors clamped at 1 (`min(1, 10*frameDelta)`, `min(1, 8*frameDelta)`,
`min(1, 5*frameDelta)`), stated for comparison with the source's
`update`, whose factors are unclamped. -/
def update_spec (cfg : WallConfig) (layout : StripLayout)
    (s : StripSmoothingState) (inp : InputSample) : StripSmoothingState :=
  let newRot := lerp s.currentRotationY (angle cfg layout.index inp)
    (min 1 (10 * inp.frameDelta))
  let absAngle := |newRot|
  let newX := layout.flatCenterX * Real.cos absAngle
  let zOffset := Real.sin absAngle * (stripWidth cfg * 0.25) *
    dir layout.index
  { currentRotationY := newRot
    currentPositionX := lerp s.currentPositionX newX
      (min 1 (8 * inp.frameDelta))
    currentPositionZ := lerp s.currentPositionZ zOffset
      (min 1 (8 * inp.frameDelta))
    currentTiltX := lerp s.currentTiltX (inp.pointerY * 0.2)
      (min 1 (5 * inp.frameDelta)) }

/-- Iterating the per-strip update with a fixed input sample:
`orbit cfg layout inp s0 n` is the smoothing state after `n` frames. -/
def orbit (cfg : WallConfig) (layout : StripLayout) (inp : InputSample)
    (s0 : StripSmoothingState) : ℕ → StripSmoothingState :=
  fun n => (fun s => update cfg layout s inp)^[n] s0

/-- Left edge of strip `i`'s flat interval. -/
def leftEdge (cfg : WallConfig) (i : ℕ) : ℝ :=
  (mkLayout cfg i).flatCenterX - stripWidth cfg / 2

/-- Right edge of strip `i`'s flat interval. -/
def rightEdge (cfg : WallConfig) (i : ℕ) : ℝ :=
  (mkLayout cfg i).flatCenterX + stripWidth cfg / 2

/-- Updating one strip of the wall in place: the wall's per-strip state
table is a function `ℕ → StripSmoothingState`, and strip `i`'s update
writes only slot `i`, reading only slot `i` and the shared input. -/
def stepStrip (cfg : WallConfig) (inp : InputSample)
    (σ : ℕ → StripSmoothingState) (i : ℕ) : ℕ → StripSmoothingState :=
  Function.update σ i (update cfg (mkLayout cfg i) (σ i) inp)

/-- Running the per-strip updates of one frame over a list of strip
indices, in the order given by the list. -/
def runOrder (cfg : WallConfig) (inp : InputSample) (order : List ℕ)
    (σ : ℕ → StripSmoothingState) : ℕ → StripSmoothingState :=
  order.foldl (stepStrip cfg inp) σ

/-- The concrete configuration of the spec's scenario:
`stripCount = 4`, `wallWidth = 8`, `wallHeight = 4`. -/
def cfg48 : WallConfig := ⟨4, 8, 4, 1⟩

/-- Concrete input for counterexamples to C4: `pointerX = 1`,
`frameDelta = 0.2` (a 5 fps frame). -/
def inpC4 : InputSample := ⟨1, 0, 0, 1/5⟩

/-- Concrete configuration for the C4 and C7 counterexamples:
one strip, `maxFoldAngle = 1`. -/
def cfgC4 : WallConfig := ⟨1, 8, 4, 1⟩

/-- Concrete input for the C6 counterexample: pointer at rest,
`elapsedTime = 0`, `frameDelta = 1/60`. -/
def inpC6 : InputSample := ⟨0, 0, 0, 1/60⟩

/-- Concrete two-strip configuration for the C8 counterexample. -/
def cfgC8 : WallConfig := ⟨2, 8, 4, 1⟩

/-- Concrete input with a saturated pointer: `pointerX = 1`,
`frameDelta = 1/60`. -/
def inpW8 : InputSample := ⟨1, 0, 0, 1/60⟩

/-- Concrete input for the C8 counterexample: pointer centered,
`elapsedTime = 2π - 0.1`, so the wave phase of strip 0 is `π - 0.05`
and that of strip 1 is `π + 0.05`. -/
def inpC8 : InputSample := ⟨0, 0, 2 * Real.pi - 0.1, 1/60⟩

/-! ### Helper lemmas -/

lemma stripWidth_pos {cfg : WallConfig} (hN : 0 < cfg.stripCount)
    (hW : 0 < cfg.wallWidth) : 0 < stripWidth cfg :=
  div_pos hW (by exact_mod_cast hN)

lemma leftEdge_eq (cfg : WallConfig) (i : ℕ) :
    leftEdge cfg i = -cfg.wallWidth / 2 + i * stripWidth cfg := by
  simp only [leftEdge, mkLayout]
  ring

lemma rightEdge_eq (cfg : WallConfig) (i : ℕ) :
    rightEdge cfg i = -cfg.wallWidth / 2 + (i + 1) * stripWidth cfg := by
  simp only [rightEdge, mkLayout]
  ring

lemma union_Icc_tile (c sw : ℝ) (hsw : 0 ≤ sw) : ∀ N : ℕ,
    (⋃ i ∈ Finset.range (N + 1),
      Set.Icc (c + (i : ℝ) * sw) (c + ((i : ℝ) + 1) * sw))
      = Set.Icc c (c + ((N : ℝ) + 1) * sw) := by
  intro N
  induction N with
  | zero => simp
  | succ N ih =>
    rw [Finset.range_succ, Finset.set_biUnion_insert, ih, Set.union_comm]
    push_cast
    rw [Set.Icc_union_Icc_eq_Icc (by nlinarith) (by nlinarith)]

/-! ### C1: layout generation, flat centers, exact tiling -/

/-- C1: for every valid `WallConfig` (`stripCount > 0`, `wallWidth > 0`)
the layout generation produces exactly `stripCount` layouts ordered by
ascending index, strip `i`'s flat center is
`-wallWidth/2 + i*stripWidth + stripWidth/2`, and the intervals
`[flatCenterX - stripWidth/2, flatCenterX + stripWidth/2]` tile
`[-wallWidth/2, wallWidth/2]` exactly: strip 0 starts at `-wallWidth/2`,
adjacent strips share an edge, the last strip ends at `wallWidth/2`, the
union of the closed intervals is the whole wall, and the open interiors
are pairwise disjoint (no gap, no overlap). -/
theorem C1_layout_tiling (cfg : WallConfig) (hN : 0 < cfg.stripCount)
    (hW : 0 < cfg.wallWidth) :
    (generate cfg).length = cfg.stripCount ∧
    (∀ i, i < cfg.stripCount → (generate cfg)[i]? = some (mkLayout cfg i)) ∧
    (∀ i, (mkLayout cfg i).index = i) ∧
    (∀ i, (mkLayout cfg i).flatCenterX =
      -cfg.wallWidth / 2 + i * (cfg.wallWidth / cfg.stripCount) +
        cfg.wallWidth / cfg.stripCount / 2) ∧
    leftEdge cfg 0 = -cfg.wallWidth / 2 ∧
    (∀ i, rightEdge cfg i = leftEdge cfg (i + 1)) ∧
    rightEdge cfg (cfg.stripCount - 1) = cfg.wallWidth / 2 ∧
    (⋃ i ∈ Finset.range cfg.stripCount,
      Set.Icc (leftEdge cfg i) (rightEdge cfg i))
        = Set.Icc (-cfg.wallWidth / 2) (cfg.wallWidth / 2) ∧
    (∀ i j, i < j →
      Set.Ioo (leftEdge cfg i) (rightEdge cfg i) ∩
        Set.Ioo (leftEdge cfg j) (rightEdge cfg j) = ∅) := by
  have hNR : (0 : ℝ) < (cfg.stripCount : ℝ) := by exact_mod_cast hN
  have hsw : 0 < stripWidth cfg := stripWidth_pos hN hW
  have hNsw : (cfg.stripCount : ℝ) * stripWidth cfg = cfg.wallWidth := by
    rw [stripWidth, mul_div_cancel₀ _ (ne_of_gt hNR)]
  refine ⟨?_, ?_, ?_, ?_, ?_, ?_, ?_, ?_, ?_⟩
  · simp [generate]
  · intro i hi
    simp [generate, List.getElem?_map, List.getElem?_range, hi]
  · intro i; rfl
  · intro i; simp [mkLayout, stripWidth]
  · rw [leftEdge_eq]
    push_cast
    ring
  · intro i
    rw [leftEdge_eq, rightEdge_eq]
    push_cast
    ring
  · rw [rightEdge_eq]
    have h1 : ((cfg.stripCount - 1 : ℕ) : ℝ) = (cfg.stripCount : ℝ) - 1 := by
      have : 1 ≤ cfg.stripCount := hN
      push_cast [this]
      ring
    rw [h1]
    rw [show ((cfg.stripCount : ℝ) - 1 + 1) = (cfg.stripCount : ℝ) by ring]
    rw [hNsw]
    ring
  · obtain ⟨M, hM⟩ : ∃ M, cfg.stripCount = M + 1 :=
      ⟨cfg.stripCount - 1, by omega⟩
    have hrw : ∀ i : ℕ,
        Set.Icc (leftEdge cfg i) (rightEdge cfg i) =
          Set.Icc (-cfg.wallWidth / 2 + (i : ℝ) * stripWidth cfg)
            (-cfg.wallWidth / 2 + ((i : ℝ) + 1) * stripWidth cfg) := by
      intro i
      rw [leftEdge_eq, rightEdge_eq]
    rw [hM]
    calc (⋃ i ∈ Finset.range (M + 1),
          Set.Icc (leftEdge cfg i) (rightEdge cfg i))
        = ⋃ i ∈ Finset.range (M + 1),
            Set.Icc (-cfg.wallWidth / 2 + (i : ℝ) * stripWidth cfg)
              (-cfg.wallWidth / 2 + ((i : ℝ) + 1) * stripWidth cfg) := by
          exact Set.iUnion₂_congr fun i _ => hrw i
      _ = Set.Icc (-cfg.wallWidth / 2)
            (-cfg.wallWidth / 2 + ((M : ℝ) + 1) * stripWidth cfg) :=
          union_Icc_tile _ _ hsw.le M
      _ = Set.Icc (-cfg.wallWidth / 2) (cfg.wallWidth / 2) := by
          have : ((M : ℝ) + 1) * stripWidth cfg = cfg.wallWidth := by
            rw [← hNsw, hM]; push_cast; ring
          rw [this, show -cfg.wallWidth / 2 + cfg.wallWidth =
            cfg.wallWidth / 2 by ring]
  · intro i j hij
    apply Set.eq_empty_iff_forall_not_mem.2
    rintro x ⟨⟨_, hxr⟩, ⟨hxl, _⟩⟩
    rw [rightEdge_eq] at hxr
    rw [leftEdge_eq] at hxl
    have hle : ((i : ℝ) + 1) * stripWidth cfg ≤ (j : ℝ) * stripWidth cfg := by
      have : ((i : ℝ) + 1) ≤ (j : ℝ) := by exact_mod_cast hij
      nlinarith
    linarith

/-- C1 witness: the spec's scenario `stripCount = 4`, `wallWidth = 8`. -/
theorem C1_witness :
    0 < cfg48.stripCount ∧ (0 : ℝ) < cfg48.wallWidth ∧
    ((generate cfg48).length = cfg48.stripCount ∧
     (∀ i, i < cfg48.stripCount →
        (generate cfg48)[i]? = some (mkLayout cfg48 i)) ∧
     (∀ i, (mkLayout cfg48 i).index = i) ∧
     (∀ i, (mkLayout cfg48 i).flatCenterX =
       -cfg48.wallWidth / 2 + i * (cfg48.wallWidth / cfg48.stripCount) +
         cfg48.wallWidth / cfg48.stripCount / 2) ∧
     leftEdge cfg48 0 = -cfg48.wallWidth / 2 ∧
     (∀ i, rightEdge cfg48 i = leftEdge cfg48 (i + 1)) ∧
     rightEdge cfg48 (cfg48.stripCount - 1) = cfg48.wallWidth / 2 ∧
     (⋃ i ∈ Finset.range cfg48.stripCount,
       Set.Icc (leftEdge cfg48 i) (rightEdge cfg48 i))
         = Set.Icc (-cfg48.wallWidth / 2) (cfg48.wallWidth / 2) ∧
     (∀ i j, i < j →
       Set.Ioo (leftEdge cfg48 i) (rightEdge cfg48 i) ∩
         Set.Ioo (leftEdge cfg48 j) (rightEdge cfg48 j) = ∅)) :=
  ⟨by norm_num [cfg48], by norm_num [cfg48],
    C1_layout_tiling cfg48 (by norm_num [cfg48]) (by norm_num [cfg48])⟩

/-- The scenario of the spec in concrete form: with `stripCount = 4` and
`wallWidth = 8` the flat centers are `-3, -1, 1, 3`. -/
lemma scenario_flatCenters :
    (generate cfg48).map StripLayout.flatCenterX = [-3, -1, 1, 3] := by
  norm_num [generate, cfg48, mkLayout, stripWidth, List.range_succ]

/-! ### C2: texture windows partition `[0,1]` -/

/-- C2: strip `i`'s texture window is `textureOffsetU = i/stripCount`
and `textureRepeatU = 1/stripCount`; the windows partition `[0,1]`
exactly: `offsetU 0 = 0`, `offsetU i + repeatU = offsetU (i+1)`, and
`offsetU (stripCount-1) + repeatU = 1`. -/
theorem C2_texture_partition (cfg : WallConfig) (hN : 0 < cfg.stripCount) :
    (∀ i, (mkLayout cfg i).textureOffsetU = i / cfg.stripCount ∧
      (mkLayout cfg i).textureRepeatU = 1 / cfg.stripCount) ∧
    (mkLayout cfg 0).textureOffsetU = 0 ∧
    (∀ i, (mkLayout cfg i).textureOffsetU +
      (mkLayout cfg i).textureRepeatU =
        (mkLayout cfg (i + 1)).textureOffsetU) ∧
    (mkLayout cfg (cfg.stripCount - 1)).textureOffsetU +
      (mkLayout cfg (cfg.stripCount - 1)).textureRepeatU = 1 := by
  have hNR : (0 : ℝ) < (cfg.stripCount : ℝ) := by exact_mod_cast hN
  refine ⟨fun i => ⟨rfl, rfl⟩, by simp [mkLayout], ?_, ?_⟩
  · intro i
    simp only [mkLayout]
    push_cast
    rw [div_add_div_same]
  · simp only [mkLayout]
    have h1 : ((cfg.stripCount - 1 : ℕ) : ℝ) = (cfg.stripCount : ℝ) - 1 := by
      have : 1 ≤ cfg.stripCount := hN
      push_cast [this]
      ring
    rw [h1, div_add_div_same, sub_add_cancel, div_self (ne_of_gt hNR)]

/-- C2 witness: the scenario `stripCount = 4` gives offsets
`0, 0.25, 0.5, 0.75`, each with repeat `0.25`. -/
theorem C2_witness :
    0 < cfg48.stripCount ∧
    ((∀ i, (mkLayout cfg48 i).textureOffsetU = i / cfg48.stripCount ∧
       (mkLayout cfg48 i).textureRepeatU = 1 / cfg48.stripCount) ∧
     (mkLayout cfg48 0).textureOffsetU = 0 ∧
     (∀ i, (mkLayout cfg48 i).textureOffsetU +
       (mkLayout cfg48 i).textureRepeatU =
         (mkLayout cfg48 (i + 1)).textureOffsetU) ∧
     (mkLayout cfg48 (cfg48.stripCount - 1)).textureOffsetU +
       (mkLayout cfg48 (cfg48.stripCount - 1)).textureRepeatU = 1) :=
  ⟨by norm_num [cfg48], C2_texture_partition cfg48 (by norm_num [cfg48])⟩

/-- The scenario in concrete form: with `stripCount = 4` the UV offsets
are `0, 0.25, 0.5, 0.75`, each with repeat `0.25`. -/
lemma scenario_textureWindows :
    (generate cfg48).map StripLayout.textureOffsetU = [0, 0.25, 0.5, 0.75] ∧
    ∀ l ∈ generate cfg48, l.textureRepeatU = 0.25 := by
  constructor
  · norm_num [generate, cfg48, mkLayout, List.range_succ]
  · intro l hl
    simp only [generate, List.mem_map] at hl
    obtain ⟨i, _, rfl⟩ := hl
    norm_num [mkLayout, cfg48]

/-! ### Component lemmas for the per-frame update -/

lemma update_currentRotationY (cfg : WallConfig) (lay : StripLayout)
    (s : StripSmoothingState) (inp : InputSample) :
    (update cfg lay s inp).currentRotationY =
      lerp s.currentRotationY (angle cfg lay.index inp)
        (10 * inp.frameDelta) := rfl

lemma update_currentPositionX (cfg : WallConfig) (lay : StripLayout)
    (s : StripSmoothingState) (inp : InputSample) :
    (update cfg lay s inp).currentPositionX =
      lerp s.currentPositionX
        (lay.flatCenterX *
          Real.cos |(update cfg lay s inp).currentRotationY|)
        (8 * inp.frameDelta) := rfl

lemma update_currentPositionZ (cfg : WallConfig) (lay : StripLayout)
    (s : StripSmoothingState) (inp : InputSample) :
    (update cfg lay s inp).currentPositionZ =
      lerp s.currentPositionZ
        (Real.sin |(update cfg lay s inp).currentRotationY| *
          (stripWidth cfg * 0.25) * dir lay.index)
        (8 * inp.frameDelta) := rfl

lemma update_currentTiltX (cfg : WallConfig) (lay : StripLayout)
    (s : StripSmoothingState) (inp : InputSample) :
    (update cfg lay s inp).currentTiltX =
      lerp s.currentTiltX (inp.pointerY * 0.2) (5 * inp.frameDelta) := rfl

lemma compression_eq_one_iff (px : ℝ) :
    compression px = 1 ↔ 2 / 3 ≤ |px| := by
  unfold compression
  rw [max_eq_right (le_min zero_le_one (by positivity))]
  rw [min_eq_left_iff]
  constructor <;> intro h <;> linarith

/-! ### C3: target rotation formula and compression saturation -/

/-- C3: the per-frame target rotation is
`dir * (maxFoldAngle * compression + wave * 0.2)` with
`dir = +1` for even index and `-1` for odd and
`wave = sin(elapsedTime * 0.5 + index * 0.1) * 0.1`;
`compression = clamp(|pointerX| * 1.5, 0, 1)` saturates at 1 exactly when
`|pointerX| ≥ 2/3`, and `pointerX = ±1` with `wave = 0` gives a target of
exactly `dir * maxFoldAngle`. -/
theorem C3_target_rotation (cfg : WallConfig) (lay : StripLayout)
    (s : StripSmoothingState) (inp : InputSample) :
    (update cfg lay s inp).currentRotationY =
      lerp s.currentRotationY
        (dir lay.index * (cfg.maxFoldAngle * compression inp.pointerX +
          wave inp.elapsedTime lay.index * 0.2))
        (10 * inp.frameDelta) ∧
    wave inp.elapsedTime lay.index =
      Real.sin (inp.elapsedTime * 0.5 + lay.index * 0.1) * 0.1 ∧
    compression inp.pointerX = max 0 (min 1 (|inp.pointerX| * 1.5)) ∧
    dir lay.index = (if lay.index % 2 = 0 then 1 else -1) ∧
    (compression inp.pointerX = 1 ↔ 2 / 3 ≤ |inp.pointerX|) ∧
    ((inp.pointerX = 1 ∨ inp.pointerX = -1) →
      wave inp.elapsedTime lay.index = 0 →
      angle cfg lay.index inp = dir lay.index * cfg.maxFoldAngle) := by
  refine ⟨rfl, rfl, rfl, rfl, compression_eq_one_iff _, ?_⟩
  intro hpx hw
  have hc : compression inp.pointerX = 1 := by
    rcases hpx with h | h <;> rw [h] <;> norm_num [compression]
  rw [angle, hc, hw]
  ring

/-- C3 witness: `pointerX = 1`, strip `0`, `elapsedTime = 0` (so the
wave vanishes): the target rotation is exactly `maxFoldAngle`. -/
theorem C3_witness :
    compression inpC4.pointerX = 1 ∧
    wave inpC4.elapsedTime 0 = 0 ∧
    angle cfgC4 0 inpC4 = dir 0 * cfgC4.maxFoldAngle := by
  have hw : wave inpC4.elapsedTime 0 = 0 := by
    norm_num [wave, inpC4]
  refine ⟨?_, hw, ?_⟩
  · exact (C3_target_rotation cfgC4 (mkLayout cfgC4 0) sZero inpC4).2.2.2.2.1.mpr
      (by norm_num [inpC4])
  · exact (C3_target_rotation cfgC4 (mkLayout cfgC4 0) sZero inpC4).2.2.2.2.2
      (Or.inl (by norm_num [inpC4])) hw

/-! ### C5: position targets from the same frame's smoothed rotation -/

/-- C5: each frame, after the rotation has been smoothed, the position
targets are computed from the already-smoothed rotation of that same
frame: `targetX = flatCenterX * cos|currentRotationY|` and
`targetZ = sin|currentRotationY| * (stripWidth * 0.25) * dir`, where
`currentRotationY` is the updated rotation, not the previous frame's. -/
theorem C5_position_from_smoothed_rotation (cfg : WallConfig)
    (lay : StripLayout) (s : StripSmoothingState) (inp : InputSample) :
    (update cfg lay s inp).currentPositionX =
      lerp s.currentPositionX
        (lay.flatCenterX *
          Real.cos |(update cfg lay s inp).currentRotationY|)
        (8 * inp.frameDelta) ∧
    (update cfg lay s inp).currentPositionZ =
      lerp s.currentPositionZ
        (Real.sin |(update cfg lay s inp).currentRotationY| *
          (stripWidth cfg * 0.25) * dir lay.index)
        (8 * inp.frameDelta) ∧
    (update cfg lay s inp).currentRotationY =
      lerp s.currentRotationY (angle cfg lay.index inp)
        (10 * inp.frameDelta) :=
  ⟨rfl, rfl, rfl⟩

/-! ### C10: pointerY influences only the tilt -/

/-- C10: two input samples that differ only in `pointerY` produce, from
the same prior state, identical `currentRotationY`, `currentPositionX`
and `currentPositionZ`; `pointerY` only enters the tilt channel. -/
theorem C10_pointerY_only_tilt (cfg : WallConfig) (lay : StripLayout)
    (s : StripSmoothingState) (inp inp' : InputSample)
    (hx : inp'.pointerX = inp.pointerX)
    (ht : inp'.elapsedTime = inp.elapsedTime)
    (hd : inp'.frameDelta = inp.frameDelta) :
    (update cfg lay s inp').currentRotationY =
      (update cfg lay s inp).currentRotationY ∧
    (update cfg lay s inp').currentPositionX =
      (update cfg lay s inp).currentPositionX ∧
    (update cfg lay s inp').currentPositionZ =
      (update cfg lay s inp).currentPositionZ := by
  obtain ⟨px, py, t, d⟩ := inp
  obtain ⟨px', py', t', d'⟩ := inp'
  simp only at hx ht hd
  subst hx ht hd
  exact ⟨rfl, rfl, rfl⟩

/-- C10 witness: two concrete inputs differing only in `pointerY`. -/
theorem C10_witness :
    (update cfg48 (mkLayout cfg48 1) sZero ⟨0, 1, 0, 1/60⟩).currentRotationY
      = (update cfg48 (mkLayout cfg48 1) sZero inpC6).currentRotationY ∧
    (update cfg48 (mkLayout cfg48 1) sZero ⟨0, 1, 0, 1/60⟩).currentPositionX
      = (update cfg48 (mkLayout cfg48 1) sZero inpC6).currentPositionX ∧
    (update cfg48 (mkLayout cfg48 1) sZero ⟨0, 1, 0, 1/60⟩).currentPositionZ
      = (update cfg48 (mkLayout cfg48 1) sZero inpC6).currentPositionZ :=
  C10_pointerY_only_tilt cfg48 (mkLayout cfg48 1) sZero inpC6
    ⟨0, 1, 0, 1/60⟩ rfl rfl rfl

/-! ### C4: interpolation factors are NOT clamped at 1 -/

/-- C4 counterexample: at `frameDelta = 0.2` with `pointerX = 1` and a
vanishing wave, the target rotation is `1` and the code's unclamped
interpolation factor is `10 * 0.2 = 2`, so the rotation jumps from `0`
to `2` (overshooting the target), whereas the claimed clamped factor
`min(1, 10*frameDelta) = 1` would land exactly on the target `1`. -/
theorem C4_counterexample :
    (update cfgC4 (mkLayout cfgC4 0) sZero inpC4).currentRotationY = 2 ∧
    (update_spec cfgC4 (mkLayout cfgC4 0) sZero inpC4).currentRotationY
      = 1 ∧
    (2 : ℝ) ≠ 1 := by
  have hw : Real.sin ((0 : ℝ) * 0.5 + (0 : ℕ) * 0.1) * 0.1 = 0 := by
    norm_num
  have ha : angle cfgC4 0 inpC4 = 1 := by
    simp only [angle, dir, wave, compression, cfgC4, inpC4]
    norm_num
  refine ⟨?_, ?_, by norm_num⟩
  · rw [update_currentRotationY]
    simp only [mkLayout]
    rw [ha]
    norm_num [lerp, sZero, inpC4]
  · show lerp sZero.currentRotationY (angle cfgC4 (mkLayout cfgC4 0).index
      inpC4) (min 1 (10 * inpC4.frameDelta)) = 1
    simp only [mkLayout]
    rw [ha]
    norm_num [lerp, sZero, inpC4]

/-- C4 (amended): the smoothing factors are the unclamped
`10*frameDelta`, `8*frameDelta`, `5*frameDelta`; the claimed clamped
form `min(1, k*frameDelta)` agrees with the code exactly on frames with
`frameDelta ≤ 0.1`, where none of the clamps can bind. -/
theorem C4_amended (cfg : WallConfig) (lay : StripLayout)
    (s : StripSmoothingState) (inp : InputSample)
    (hd0 : 0 < inp.frameDelta) (hd : inp.frameDelta ≤ 1 / 10) :
    update cfg lay s inp = update_spec cfg lay s inp := by
  have h10 : min 1 (10 * inp.frameDelta) = 10 * inp.frameDelta :=
    min_eq_right (by linarith)
  have h8 : min 1 (8 * inp.frameDelta) = 8 * inp.frameDelta :=
    min_eq_right (by linarith)
  have h5 : min 1 (5 * inp.frameDelta) = 5 * inp.frameDelta :=
    min_eq_right (by linarith)
  simp only [update, update_spec, h10, h8, h5]

/-- C4 witness: at `frameDelta = 1/60` the code's update and the spec's
clamped update coincide. -/
theorem C4_witness :
    (0 : ℝ) < 1 / 60 ∧ (1 : ℝ) / 60 ≤ 1 / 10 ∧
    update cfg48 (mkLayout cfg48 1) sZero inpC6 =
      update_spec cfg48 (mkLayout cfg48 1) sZero inpC6 :=
  ⟨by norm_num, by norm_num,
    C4_amended cfg48 (mkLayout cfg48 1) sZero inpC6
      (by norm_num [inpC6]) (by norm_num [inpC6])⟩

/-! ### Convergence machinery for the damped smoothing -/

lemma orbit_zero (cfg : WallConfig) (lay : StripLayout) (inp : InputSample)
    (s0 : StripSmoothingState) : orbit cfg lay inp s0 0 = s0 := rfl

lemma orbit_succ (cfg : WallConfig) (lay : StripLayout) (inp : InputSample)
    (s0 : StripSmoothingState) (n : ℕ) :
    orbit cfg lay inp s0 (n + 1) =
      update cfg lay (orbit cfg lay inp s0 n) inp := by
  simp only [orbit, Function.iterate_succ_apply']

lemma orbit_rot_succ (cfg : WallConfig) (lay : StripLayout)
    (inp : InputSample) (s0 : StripSmoothingState) (n : ℕ) :
    (orbit cfg lay inp s0 (n + 1)).currentRotationY =
      lerp (orbit cfg lay inp s0 n).currentRotationY
        (angle cfg lay.index inp) (10 * inp.frameDelta) := by
  rw [orbit_succ, update_currentRotationY]

lemma orbit_tilt_succ (cfg : WallConfig) (lay : StripLayout)
    (inp : InputSample) (s0 : StripSmoothingState) (n : ℕ) :
    (orbit cfg lay inp s0 (n + 1)).currentTiltX =
      lerp (orbit cfg lay inp s0 n).currentTiltX
        (inp.pointerY * 0.2) (5 * inp.frameDelta) := by
  rw [orbit_succ, update_currentTiltX]

lemma orbit_posX_succ (cfg : WallConfig) (lay : StripLayout)
    (inp : InputSample) (s0 : StripSmoothingState) (n : ℕ) :
    (orbit cfg lay inp s0 (n + 1)).currentPositionX =
      lerp (orbit cfg lay inp s0 n).currentPositionX
        (lay.flatCenterX *
          Real.cos |(orbit cfg lay inp s0 (n + 1)).currentRotationY|)
        (8 * inp.frameDelta) := by
  conv_lhs => rw [orbit_succ]
  rw [update_currentPositionX, ← orbit_succ]

lemma orbit_posZ_succ (cfg : WallConfig) (lay : StripLayout)
    (inp : InputSample) (s0 : StripSmoothingState) (n : ℕ) :
    (orbit cfg lay inp s0 (n + 1)).currentPositionZ =
      lerp (orbit cfg lay inp s0 n).currentPositionZ
        (Real.sin |(orbit cfg lay inp s0 (n + 1)).currentRotationY| *
          (stripWidth cfg * 0.25) * dir lay.index)
        (8 * inp.frameDelta) := by
  conv_lhs => rw [orbit_succ]
  rw [update_currentPositionZ, ← orbit_succ]

/-- A sequence lerping toward a fixed target with fixed factor `t` has
exactly geometric error decay with ratio `1 - t`. -/
lemma lerp_seq_sub (x : ℕ → ℝ) (A t : ℝ)
    (hx : ∀ n, x (n + 1) = lerp (x n) A t) (n : ℕ) :
    x n - A = (1 - t) ^ n * (x 0 - A) := by
  induction n with
  | zero => simp
  | succ n ih =>
    have h1 : x (n + 1) - A = (1 - t) * (x n - A) := by
      rw [hx n, lerp]; ring
    rw [h1, ih, pow_succ]
    ring

/-- A sequence lerping toward a fixed target with factor `0 < t ≤ 1`
converges to the target. -/
lemma lerp_seq_tendsto (x : ℕ → ℝ) (A t : ℝ)
    (hx : ∀ n, x (n + 1) = lerp (x n) A t)
    (ht0 : 0 < t) (ht1 : t ≤ 1) :
    Tendsto x atTop (nhds A) := by
  have hform : ∀ n, x n = (1 - t) ^ n * (x 0 - A) + A := by
    intro n
    have := lerp_seq_sub x A t hx n
    linarith
  have hpow : Tendsto (fun n : ℕ => (1 - t) ^ n) atTop (nhds 0) :=
    tendsto_pow_atTop_nhds_zero_of_lt_one (by linarith) (by linarith)
  have h2 : Tendsto (fun n : ℕ => (1 - t) ^ n * (x 0 - A) + A) atTop
      (nhds (0 * (x 0 - A) + A)) :=
    (hpow.mul_const (x 0 - A)).add_const A
  rw [zero_mul, zero_add] at h2
  exact h2.congr fun n => (hform n).symm

/-- A sequence lerping with factor `0 < t ≤ 1` toward a moving target
that converges to `L` itself converges to `L`. -/
lemma lerp_seq_track (x u : ℕ → ℝ) (L t : ℝ)
    (hx : ∀ n, x (n + 1) = lerp (x n) (u n) t)
    (ht0 : 0 < t) (ht1 : t ≤ 1)
    (hu : Tendsto u atTop (nhds L)) :
    Tendsto x atTop (nhds L) := by
  rw [Metric.tendsto_atTop] at hu ⊢
  intro ε hε
  obtain ⟨N1, hN1⟩ := hu (ε / 2) (by linarith)
  have key : ∀ k, |x (N1 + k) - L| ≤
      (1 - t) ^ k * |x N1 - L| + ε / 2 := by
    intro k
    induction k with
    | zero => simp; linarith
    | succ k ih =>
      have hrec : x (N1 + k + 1) - L =
          (1 - t) * (x (N1 + k) - L) + t * (u (N1 + k) - L) := by
        rw [hx (N1 + k), lerp]; ring
      have hu2 : |u (N1 + k) - L| < ε / 2 := by
        have := hN1 (N1 + k) (by omega)
        rwa [Real.dist_eq] at this
      have habs : |x (N1 + (k + 1)) - L| ≤
          (1 - t) * |x (N1 + k) - L| + t * |u (N1 + k) - L| := by
        rw [show N1 + (k + 1) = N1 + k + 1 by omega, hrec]
        calc |(1 - t) * (x (N1 + k) - L) + t * (u (N1 + k) - L)| ≤
            |(1 - t) * (x (N1 + k) - L)| + |t * (u (N1 + k) - L)| :=
              abs_add _ _
          _ = (1 - t) * |x (N1 + k) - L| + t * |u (N1 + k) - L| := by
              rw [abs_mul, abs_mul, abs_of_nonneg (by linarith : (0:ℝ) ≤ 1 - t),
                abs_of_nonneg ht0.le]
      calc |x (N1 + (k + 1)) - L| ≤
          (1 - t) * |x (N1 + k) - L| + t * |u (N1 + k) - L| := habs
        _ ≤ (1 - t) * ((1 - t) ^ k * |x N1 - L| + ε / 2) + t * (ε / 2) := by
            have h1 : (0:ℝ) ≤ 1 - t := by linarith
            have h2 := mul_le_mul_of_nonneg_left ih h1
            have h3 := mul_le_mul_of_nonneg_left hu2.le ht0.le
            linarith
        _ = (1 - t) ^ (k + 1) * |x N1 - L| + ε / 2 := by
            rw [pow_succ]; ring
  have hpow : Tendsto (fun k : ℕ => (1 - t) ^ k * |x N1 - L|) atTop
      (nhds 0) := by
    have := (tendsto_pow_atTop_nhds_zero_of_lt_one
      (by linarith : (0:ℝ) ≤ 1 - t) (by linarith : (1:ℝ) - t < 1)).mul_const
      |x N1 - L|
    rwa [zero_mul] at this
  obtain ⟨K, hK⟩ := (Metric.tendsto_atTop.mp hpow) (ε / 2) (by linarith)
  refine ⟨N1 + K, fun n hn => ?_⟩
  obtain ⟨k, rfl, hKk⟩ : ∃ k, n = N1 + k ∧ K ≤ k :=
    ⟨n - N1, by omega, by omega⟩
  have h2 := hK k hKk
  rw [Real.dist_eq, sub_zero,
    abs_of_nonneg (mul_nonneg (pow_nonneg (by linarith) _) (abs_nonneg _))]
    at h2
  rw [Real.dist_eq]
  calc |x (N1 + k) - L| ≤ (1 - t) ^ k * |x N1 - L| + ε / 2 := key k
    _ < ε / 2 + ε / 2 := by linarith
    _ = ε := by ring

/-- With `0 < frameDelta ≤ 0.1`, the iterated rotation of a strip
converges to the fixed-input target angle. -/
lemma orbit_rot_tendsto (cfg : WallConfig) (lay : StripLayout)
    (inp : InputSample) (s0 : StripSmoothingState)
    (hd0 : 0 < inp.frameDelta) (hd : inp.frameDelta ≤ 1 / 10) :
    Tendsto (fun n => (orbit cfg lay inp s0 n).currentRotationY) atTop
      (nhds (angle cfg lay.index inp)) :=
  lerp_seq_tendsto _ _ _ (fun n => orbit_rot_succ cfg lay inp s0 n)
    (by linarith) (by linarith)

/-- With `0 < frameDelta ≤ 0.1`, the iterated x position of a strip
converges to `flatCenterX * cos|targetAngle|`. -/
lemma orbit_posX_tendsto (cfg : WallConfig) (lay : StripLayout)
    (inp : InputSample) (s0 : StripSmoothingState)
    (hd0 : 0 < inp.frameDelta) (hd : inp.frameDelta ≤ 1 / 10) :
    Tendsto (fun n => (orbit cfg lay inp s0 n).currentPositionX) atTop
      (nhds (lay.flatCenterX * Real.cos |angle cfg lay.index inp|)) := by
  have hrot := orbit_rot_tendsto cfg lay inp s0 hd0 hd
  have hrot1 : Tendsto
      (fun n => (orbit cfg lay inp s0 (n + 1)).currentRotationY) atTop
      (nhds (angle cfg lay.index inp)) :=
    (tendsto_add_atTop_iff_nat 1).mpr hrot
  have hcont : Continuous fun r : ℝ => lay.flatCenterX * Real.cos |r| :=
    continuous_const.mul (Real.continuous_cos.comp continuous_abs)
  have hu : Tendsto
      (fun n => lay.flatCenterX *
        Real.cos |(orbit cfg lay inp s0 (n + 1)).currentRotationY|) atTop
      (nhds (lay.flatCenterX * Real.cos |angle cfg lay.index inp|)) :=
    (hcont.tendsto _).comp hrot1
  exact lerp_seq_track _ _ _ _
    (fun n => orbit_posX_succ cfg lay inp s0 n)
    (by linarith) (by linarith) hu

/-- With `0 < frameDelta ≤ 0.1`, the iterated z position of a strip
converges to `sin|targetAngle| * (stripWidth * 0.25) * dir`. -/
lemma orbit_posZ_tendsto (cfg : WallConfig) (lay : StripLayout)
    (inp : InputSample) (s0 : StripSmoothingState)
    (hd0 : 0 < inp.frameDelta) (hd : inp.frameDelta ≤ 1 / 10) :
    Tendsto (fun n => (orbit cfg lay inp s0 n).currentPositionZ) atTop
      (nhds (Real.sin |angle cfg lay.index inp| *
        (stripWidth cfg * 0.25) * dir lay.index)) := by
  have hrot := orbit_rot_tendsto cfg lay inp s0 hd0 hd
  have hrot1 : Tendsto
      (fun n => (orbit cfg lay inp s0 (n + 1)).currentRotationY) atTop
      (nhds (angle cfg lay.index inp)) :=
    (tendsto_add_atTop_iff_nat 1).mpr hrot
  have hcont : Continuous fun r : ℝ =>
      Real.sin |r| * (stripWidth cfg * 0.25) * dir lay.index :=
    ((Real.continuous_sin.comp continuous_abs).mul continuous_const).mul
      continuous_const
  have hu : Tendsto
      (fun n => Real.sin |(orbit cfg lay inp s0 (n + 1)).currentRotationY| *
        (stripWidth cfg * 0.25) * dir lay.index) atTop
      (nhds (Real.sin |angle cfg lay.index inp| *
        (stripWidth cfg * 0.25) * dir lay.index)) :=
    (hcont.tendsto _).comp hrot1
  exact lerp_seq_track _ _ _ _
    (fun n => orbit_posZ_succ cfg lay inp s0 n)
    (by linarith) (by linarith) hu

/-- With `0 < frameDelta ≤ 0.1`, the iterated tilt of a strip converges
to `pointerY * 0.2`. -/
lemma orbit_tilt_tendsto (cfg : WallConfig) (lay : StripLayout)
    (inp : InputSample) (s0 : StripSmoothingState)
    (hd0 : 0 < inp.frameDelta) (hd : inp.frameDelta ≤ 1 / 10) :
    Tendsto (fun n => (orbit cfg lay inp s0 n).currentTiltX) atTop
      (nhds (inp.pointerY * 0.2)) :=
  lerp_seq_tendsto _ _ _ (fun n => orbit_tilt_succ cfg lay inp s0 n)
    (by linarith) (by linarith)

/-! ### C6: rest input does not give a vanishing wave for all strips -/

/-- C6 counterexample: at `elapsedTime = 0` the wave of strip 1 is
`sin(0.1) * 0.1 ≠ 0`, so "wave = 0 for every strip" fails, and strip 1's
target angle is nonzero, so it does not settle to `rotationY = 0`. -/
theorem C6_counterexample :
    wave 0 1 ≠ 0 ∧ angle cfg48 1 inpC6 ≠ 0 := by
  have hs : 0 < Real.sin (0.1 : ℝ) :=
    Real.sin_pos_of_pos_of_lt_pi (by norm_num)
      (by nlinarith [Real.pi_gt_three])
  have harg : (0 : ℝ) * 0.5 + ((1 : ℕ) : ℝ) * 0.1 = 0.1 := by
    push_cast
    norm_num
  have hw : wave 0 1 = Real.sin (0.1 : ℝ) * 0.1 := by
    rw [wave, harg]
  constructor
  · rw [hw]
    exact (mul_pos hs (by norm_num)).ne'
  · have hc : compression (0 : ℝ) = 0 := by norm_num [compression]
    have : angle cfg48 1 inpC6 = -(Real.sin (0.1 : ℝ) * 0.02) := by
      simp only [angle, dir, cfg48, inpC6, hc]
      rw [show wave (0 : ℝ) 1 = Real.sin (0.1 : ℝ) * 0.1 from hw]
      norm_num
      ring
    rw [this]
    have : 0 < Real.sin (0.1 : ℝ) * 0.02 := mul_pos hs (by norm_num)
    linarith [this]

/-- C6 (amended): with `pointerX = 0`, `pointerY = 0`, `elapsedTime = 0`
the compression is 0 for every strip, but the wave is
`sin(0.1 * index) * 0.1`, which vanishes for strip 0 (not for every
strip); strip 0 settles to `rotationY = 0`, `positionX = flatCenterX`,
`positionZ = 0`, `tiltX = 0`: that state is a fixed point of strip 0's
update, the iterates from the zero state are exactly
`⟨0, flatCenterX * (1 - (1 - 8*frameDelta)^n), 0, 0⟩`, and for
`0 < frameDelta ≤ 0.1` they converge to the settle state. -/
theorem C6_amended (cfg : WallConfig) (d : ℝ) (hd0 : 0 < d)
    (hd : d ≤ 1 / 10) :
    compression 0 = 0 ∧
    (∀ i : ℕ, wave 0 i = Real.sin (i * 0.1) * 0.1) ∧
    wave 0 0 = 0 ∧
    update cfg (mkLayout cfg 0)
        ⟨0, (mkLayout cfg 0).flatCenterX, 0, 0⟩ ⟨0, 0, 0, d⟩ =
      ⟨0, (mkLayout cfg 0).flatCenterX, 0, 0⟩ ∧
    (∀ n, orbit cfg (mkLayout cfg 0) ⟨0, 0, 0, d⟩ sZero n =
      ⟨0, (mkLayout cfg 0).flatCenterX * (1 - (1 - 8 * d) ^ n), 0, 0⟩) ∧
    Tendsto
      (fun n => (orbit cfg (mkLayout cfg 0) ⟨0, 0, 0, d⟩ sZero
        n).currentPositionX) atTop (nhds (mkLayout cfg 0).flatCenterX) := by
  have hc : compression (0 : ℝ) = 0 := by norm_num [compression]
  have hw0 : wave (0 : ℝ) 0 = 0 := by
    rw [wave]
    norm_num
  have ha : angle cfg (mkLayout cfg 0).index (⟨0, 0, 0, d⟩ : InputSample)
      = 0 := by
    show angle cfg 0 ⟨0, 0, 0, d⟩ = 0
    rw [angle]
    show dir 0 * (cfg.maxFoldAngle * compression 0 + wave 0 0 * 0.2) = 0
    rw [hc, hw0]
    ring
  refine ⟨hc, ?_, hw0, ?_, ?_, ?_⟩
  · intro i
    rw [wave]
    ring_nf
  · show update cfg (mkLayout cfg 0) _ _ = _
    simp only [update, ha, lerp]
    simp only [StripSmoothingState.mk.injEq]
    norm_num
    ring
  · intro n
    induction n with
    | zero =>
      simp only [orbit_zero, sZero, pow_zero, StripSmoothingState.mk.injEq]
      norm_num
    | succ n ih =>
      rw [orbit_succ, ih]
      simp only [update, ha, lerp]
      simp only [StripSmoothingState.mk.injEq]
      refine ⟨by ring, ?_, by norm_num, by ring⟩
      rw [show (1 - 10 * d) * 0 + 10 * d * 0 = (0 : ℝ) by ring,
        abs_zero, Real.cos_zero, pow_succ]
      ring
  · have h := orbit_posX_tendsto cfg (mkLayout cfg 0)
      ⟨0, 0, 0, d⟩ sZero (by exact hd0) (by exact hd)
    rw [ha, abs_zero, Real.cos_zero, mul_one] at h
    exact h

/-- C6 witness: the amended statement at `stripCount = 4`, `wallWidth = 8`,
`frameDelta = 1/60`. -/
theorem C6_witness :
    update cfg48 (mkLayout cfg48 0)
        ⟨0, (mkLayout cfg48 0).flatCenterX, 0, 0⟩ ⟨0, 0, 0, 1/60⟩ =
      ⟨0, (mkLayout cfg48 0).flatCenterX, 0, 0⟩ :=
  (C6_amended cfg48 (1/60) (by norm_num) (by norm_num)).2.2.2.1

/-! ### C7: convergence — geometric only when the factors stay ≤ 1 -/

/-- C7 counterexample: at `frameDelta = 0.2` (factor `10Δ = 2`) with a
constant input whose target angle is `1`, the rotation of the strip goes
`0 → 2 → 0`: it overshoots the target and returns to its starting value
every two frames, so the error does not decay geometrically, the
approach is not monotonic, and the state never stabilizes within a
tolerance below 1 — refuting the claim for arbitrary positive
`frameDelta`. -/
theorem C7_counterexample :
    angle cfgC4 0 inpC4 = 1 ∧
    (orbit cfgC4 (mkLayout cfgC4 0) inpC4 sZero 1).currentRotationY = 2 ∧
    (orbit cfgC4 (mkLayout cfgC4 0) inpC4 sZero 2).currentRotationY = 0 := by
  have ha : angle cfgC4 (mkLayout cfgC4 0).index inpC4 = 1 := by
    show angle cfgC4 0 inpC4 = 1
    rw [angle]
    show dir 0 * (cfgC4.maxFoldAngle * compression 1 + wave 0 0 * 0.2) = 1
    rw [show wave (0:ℝ) 0 = 0 by rw [wave]; norm_num]
    norm_num [dir, compression, cfgC4]
  have h0 : (orbit cfgC4 (mkLayout cfgC4 0) inpC4 sZero 0).currentRotationY
      = 0 := rfl
  have h1 : (orbit cfgC4 (mkLayout cfgC4 0) inpC4 sZero 1).currentRotationY
      = 2 := by
    rw [show (1 : ℕ) = 0 + 1 from rfl, orbit_rot_succ, h0, ha]
    norm_num [lerp, inpC4]
  have h2 : (orbit cfgC4 (mkLayout cfgC4 0) inpC4 sZero 2).currentRotationY
      = 0 := by
    rw [show (2 : ℕ) = 1 + 1 from rfl, orbit_rot_succ, h1, ha]
    norm_num [lerp, inpC4]
  exact ⟨ha, h1, h2⟩

/-- C7 (amended): holding the input constant with
`0 < frameDelta ≤ 0.1` (so every smoothing factor is at most 1),
the rotation and tilt errors decay exactly geometrically (ratios
`1 - 10Δ` and `1 - 5Δ`) and monotonically, the rotation and tilt
converge to their constant targets, and the positions — whose per-frame
targets move with the still-converging rotation — converge to their
limit values `flatCenterX * cos|targetAngle|` and
`sin|targetAngle| * (stripWidth * 0.25) * dir`. -/
theorem C7_amended (cfg : WallConfig) (lay : StripLayout)
    (inp : InputSample) (s0 : StripSmoothingState)
    (hd0 : 0 < inp.frameDelta) (hd : inp.frameDelta ≤ 1 / 10) :
    (∀ n, (orbit cfg lay inp s0 (n + 1)).currentRotationY -
        angle cfg lay.index inp =
      (1 - 10 * inp.frameDelta) *
        ((orbit cfg lay inp s0 n).currentRotationY -
          angle cfg lay.index inp)) ∧
    (∀ n, (orbit cfg lay inp s0 n).currentRotationY -
        angle cfg lay.index inp =
      (1 - 10 * inp.frameDelta) ^ n *
        (s0.currentRotationY - angle cfg lay.index inp)) ∧
    (∀ n, |(orbit cfg lay inp s0 (n + 1)).currentRotationY -
        angle cfg lay.index inp| ≤
      |(orbit cfg lay inp s0 n).currentRotationY -
        angle cfg lay.index inp|) ∧
    (∀ n, (orbit cfg lay inp s0 n).currentTiltX - inp.pointerY * 0.2 =
      (1 - 5 * inp.frameDelta) ^ n *
        (s0.currentTiltX - inp.pointerY * 0.2)) ∧
    (∀ n, |(orbit cfg lay inp s0 (n + 1)).currentTiltX -
        inp.pointerY * 0.2| ≤
      |(orbit cfg lay inp s0 n).currentTiltX - inp.pointerY * 0.2|) ∧
    Tendsto (fun n => (orbit cfg lay inp s0 n).currentRotationY) atTop
      (nhds (angle cfg lay.index inp)) ∧
    Tendsto (fun n => (orbit cfg lay inp s0 n).currentTiltX) atTop
      (nhds (inp.pointerY * 0.2)) ∧
    Tendsto (fun n => (orbit cfg lay inp s0 n).currentPositionX) atTop
      (nhds (lay.flatCenterX * Real.cos |angle cfg lay.index inp|)) ∧
    Tendsto (fun n => (orbit cfg lay inp s0 n).currentPositionZ) atTop
      (nhds (Real.sin |angle cfg lay.index inp| *
        (stripWidth cfg * 0.25) * dir lay.index)) := by
  have hrotrec : ∀ n, (orbit cfg lay inp s0 (n + 1)).currentRotationY -
      angle cfg lay.index inp =
      (1 - 10 * inp.frameDelta) *
        ((orbit cfg lay inp s0 n).currentRotationY -
          angle cfg lay.index inp) := by
    intro n
    rw [orbit_rot_succ, lerp]
    ring
  have hrotgeo := lerp_seq_sub
    (fun n => (orbit cfg lay inp s0 n).currentRotationY)
    (angle cfg lay.index inp) (10 * inp.frameDelta)
    (fun n => orbit_rot_succ cfg lay inp s0 n)
  have htiltgeo := lerp_seq_sub
    (fun n => (orbit cfg lay inp s0 n).currentTiltX)
    (inp.pointerY * 0.2) (5 * inp.frameDelta)
    (fun n => orbit_tilt_succ cfg lay inp s0 n)
  refine ⟨hrotrec, hrotgeo, ?_, htiltgeo, ?_, ?_, ?_, ?_, ?_⟩
  · intro n
    rw [hrotrec n, abs_mul]
    exact mul_le_of_le_one_left (abs_nonneg _)
      (abs_le.mpr ⟨by linarith, by linarith⟩)
  · intro n
    have hrec : (orbit cfg lay inp s0 (n + 1)).currentTiltX -
        inp.pointerY * 0.2 =
        (1 - 5 * inp.frameDelta) *
          ((orbit cfg lay inp s0 n).currentTiltX - inp.pointerY * 0.2) := by
      rw [orbit_tilt_succ, lerp]
      ring
    rw [hrec, abs_mul]
    exact mul_le_of_le_one_left (abs_nonneg _)
      (abs_le.mpr ⟨by linarith, by linarith⟩)
  · exact orbit_rot_tendsto cfg lay inp s0 hd0 hd
  · exact orbit_tilt_tendsto cfg lay inp s0 hd0 hd
  · exact orbit_posX_tendsto cfg lay inp s0 hd0 hd
  · exact orbit_posZ_tendsto cfg lay inp s0 hd0 hd

/-- C7 witness: the amended statement at the scenario configuration with
a resting pointer and `frameDelta = 1/60`. -/
theorem C7_witness :
    Tendsto (fun n => (orbit cfg48 (mkLayout cfg48 1) inpC6 sZero
        n).currentRotationY) atTop
      (nhds (angle cfg48 (mkLayout cfg48 1).index inpC6)) :=
  (C7_amended cfg48 (mkLayout cfg48 1) inpC6 sZero
    (by norm_num [inpC6]) (by norm_num [inpC6])).2.2.2.2.2.1

/-! ### C8: adjacent strips need not converge to opposite signs -/

/-- C8 counterexample: with the pointer centered (`compression = 0`) and
`elapsedTime = 2π - 0.1`, the wave phases of strips 0 and 1 straddle π:
`wave₀ = sin(π - 0.05) * 0.1 > 0` while `wave₁ = sin(π + 0.05) * 0.1 < 0`.
The two target angles — the values the rotations converge to — are then
EQUAL (both `sin(0.05) * 0.02 > 0`): both are nonzero yet they have the
same sign, refuting the claimed even/odd sign alternation. -/
theorem C8_counterexample :
    angle cfgC8 0 inpC8 = angle cfgC8 1 inpC8 ∧
    0 < angle cfgC8 0 inpC8 ∧
    Tendsto (fun n => (orbit cfgC8 (mkLayout cfgC8 0) inpC8 sZero
        n).currentRotationY) atTop (nhds (angle cfgC8 0 inpC8)) ∧
    Tendsto (fun n => (orbit cfgC8 (mkLayout cfgC8 1) inpC8 sZero
        n).currentRotationY) atTop (nhds (angle cfgC8 1 inpC8)) := by
  have hc : compression (0 : ℝ) = 0 := by norm_num [compression]
  have hs : 0 < Real.sin (0.05 : ℝ) :=
    Real.sin_pos_of_pos_of_lt_pi (by norm_num)
      (by nlinarith [Real.pi_gt_three])
  have harg0 : (2 * Real.pi - 0.1) * 0.5 + ((0 : ℕ) : ℝ) * 0.1 =
      Real.pi - 0.05 := by
    push_cast
    ring
  have harg1 : (2 * Real.pi - 0.1) * 0.5 + ((1 : ℕ) : ℝ) * 0.1 =
      0.05 + Real.pi := by
    push_cast
    ring
  have hw0 : wave inpC8.elapsedTime 0 = Real.sin (0.05 : ℝ) * 0.1 := by
    rw [wave]
    show Real.sin ((2 * Real.pi - 0.1) * 0.5 + ((0 : ℕ) : ℝ) * 0.1) * 0.1 = _
    rw [harg0, Real.sin_pi_sub]
  have hw1 : wave inpC8.elapsedTime 1 = -(Real.sin (0.05 : ℝ) * 0.1) := by
    rw [wave]
    show Real.sin ((2 * Real.pi - 0.1) * 0.5 + ((1 : ℕ) : ℝ) * 0.1) * 0.1 = _
    rw [harg1, Real.sin_add_pi]
    ring
  have ha0 : angle cfgC8 0 inpC8 = Real.sin (0.05 : ℝ) * 0.02 := by
    rw [angle, hw0]
    show (1 : ℝ) * ((1 : ℝ) * compression inpC8.pointerX +
      Real.sin (0.05 : ℝ) * 0.1 * 0.2) = _
    rw [show inpC8.pointerX = (0 : ℝ) from rfl, hc]
    ring
  have ha1 : angle cfgC8 1 inpC8 = Real.sin (0.05 : ℝ) * 0.02 := by
    rw [angle, hw1]
    show (-1 : ℝ) * ((1 : ℝ) * compression inpC8.pointerX +
      -(Real.sin (0.05 : ℝ) * 0.1) * 0.2) = _
    rw [show inpC8.pointerX = (0 : ℝ) from rfl, hc]
    ring
  refine ⟨by rw [ha0, ha1], by rw [ha0]; positivity, ?_, ?_⟩
  · exact orbit_rot_tendsto cfgC8 (mkLayout cfgC8 0) inpC8 sZero
      (by norm_num [inpC8]) (by norm_num [inpC8])
  · exact orbit_rot_tendsto cfgC8 (mkLayout cfgC8 1) inpC8 sZero
      (by norm_num [inpC8]) (by norm_num [inpC8])

/-- C8 (amended): for adjacent strips `i` and `i+1`, whenever both
strips' fold drive `maxFoldAngle * compression + wave * 0.2` is strictly
positive, the target angles — and hence the converged rotations, which
tend to them for `0 < frameDelta ≤ 0.1` — have opposite signs, the
even-indexed strip folding positive and the odd-indexed negative. -/
theorem C8_amended (cfg : WallConfig) (inp : InputSample) (i : ℕ)
    (s0 s1 : StripSmoothingState)
    (hd0 : 0 < inp.frameDelta) (hd : inp.frameDelta ≤ 1 / 10)
    (hpos : 0 < cfg.maxFoldAngle * compression inp.pointerX +
      wave inp.elapsedTime i * 0.2)
    (hpos1 : 0 < cfg.maxFoldAngle * compression inp.pointerX +
      wave inp.elapsedTime (i + 1) * 0.2) :
    angle cfg i inp * angle cfg (i + 1) inp < 0 ∧
    (i % 2 = 0 → 0 < angle cfg i inp ∧ angle cfg (i + 1) inp < 0) ∧
    (i % 2 = 1 → angle cfg i inp < 0 ∧ 0 < angle cfg (i + 1) inp) ∧
    Tendsto (fun n => (orbit cfg (mkLayout cfg i) inp s0
        n).currentRotationY) atTop (nhds (angle cfg i inp)) ∧
    Tendsto (fun n => (orbit cfg (mkLayout cfg (i + 1)) inp s1
        n).currentRotationY) atTop (nhds (angle cfg (i + 1) inp)) := by
  have htend0 : Tendsto (fun n => (orbit cfg (mkLayout cfg i) inp s0
      n).currentRotationY) atTop (nhds (angle cfg i inp)) :=
    orbit_rot_tendsto cfg (mkLayout cfg i) inp s0 hd0 hd
  have htend1 : Tendsto (fun n => (orbit cfg (mkLayout cfg (i + 1)) inp s1
      n).currentRotationY) atTop (nhds (angle cfg (i + 1) inp)) :=
    orbit_rot_tendsto cfg (mkLayout cfg (i + 1)) inp s1 hd0 hd
  rcases Nat.mod_two_eq_zero_or_one i with h | h
  · have hdi : dir i = 1 := by rw [dir, if_pos h]
    have hdi1 : dir (i + 1) = -1 := by
      rw [dir, if_neg (by omega)]
    have h1 : 0 < angle cfg i inp := by
      rw [angle, hdi]
      linarith
    have h2 : angle cfg (i + 1) inp < 0 := by
      rw [angle, hdi1]
      nlinarith
    exact ⟨mul_neg_of_pos_of_neg h1 h2, fun _ => ⟨h1, h2⟩,
      fun h' => absurd h' (by omega), htend0, htend1⟩
  · have hdi : dir i = -1 := by
      rw [dir, if_neg (by omega)]
    have hdi1 : dir (i + 1) = 1 := by
      rw [dir, if_pos (by omega)]
    have h1 : angle cfg i inp < 0 := by
      rw [angle, hdi]
      nlinarith
    have h2 : 0 < angle cfg (i + 1) inp := by
      rw [angle, hdi1]
      linarith
    exact ⟨mul_neg_of_neg_of_pos h1 h2, fun h' => absurd h' (by omega),
      fun _ => ⟨h1, h2⟩, htend0, htend1⟩

/-- C8 witness: at the scenario configuration with a saturated pointer
(`pointerX = 1`, `elapsedTime = 0`), adjacent strips 0 and 1 converge to
target angles of opposite sign. -/
theorem C8_witness :
    angle cfg48 0 inpW8 * angle cfg48 1 inpW8 < 0 := by
  have hc1 : compression inpW8.pointerX = 1 := by
    norm_num [compression, inpW8]
  have hw0 : wave inpW8.elapsedTime 0 = 0 := by
    rw [wave]
    show Real.sin ((0 : ℝ) * 0.5 + ((0 : ℕ) : ℝ) * 0.1) * 0.1 = 0
    norm_num
  have hw1 : -1 ≤ Real.sin ((0 : ℝ) * 0.5 + ((1 : ℕ) : ℝ) * 0.1) :=
    Real.neg_one_le_sin _
  exact (C8_amended cfg48 inpW8 0 sZero sZero
    (by norm_num [inpW8]) (by norm_num [inpW8])
    (by rw [hw0]; norm_num [cfg48, hc1])
    (by show (0:ℝ) < cfg48.maxFoldAngle * compression inpW8.pointerX +
          Real.sin ((0 : ℝ) * 0.5 + ((1 : ℕ) : ℝ) * 0.1) * 0.1 * 0.2
        rw [hc1]
        show (0:ℝ) < 1 * 1 + Real.sin ((0:ℝ) * 0.5 + ((1:ℕ):ℝ) * 0.1) * 0.1 * 0.2
        nlinarith [hw1])).1

/-! ### C9: strips are independent; update order is irrelevant -/

lemma runOrder_nil (cfg : WallConfig) (inp : InputSample)
    (σ : ℕ → StripSmoothingState) : runOrder cfg inp [] σ = σ := rfl

lemma runOrder_cons (cfg : WallConfig) (inp : InputSample) (j : ℕ)
    (rest : List ℕ) (σ : ℕ → StripSmoothingState) :
    runOrder cfg inp (j :: rest) σ =
      runOrder cfg inp rest (stepStrip cfg inp σ j) := rfl

/-- Folding the one-strip-at-a-time updates over any duplicate-free list
of strip indices updates exactly the listed slots, each from its own
prior state and the shared input, and leaves every other slot unchanged. -/
lemma runOrder_sound (cfg : WallConfig) (inp : InputSample) :
    ∀ (order : List ℕ) (σ : ℕ → StripSmoothingState), order.Nodup →
      (∀ i ∈ order, runOrder cfg inp order σ i =
        update cfg (mkLayout cfg i) (σ i) inp) ∧
      (∀ i, i ∉ order → runOrder cfg inp order σ i = σ i) := by
  intro order
  induction order with
  | nil => exact fun σ _ => ⟨fun i hi => absurd hi (List.not_mem_nil i),
      fun i _ => rfl⟩
  | cons j rest ih =>
    intro σ hnd
    rw [List.nodup_cons] at hnd
    obtain ⟨hj, hrest⟩ := hnd
    obtain ⟨ih1, ih2⟩ := ih (stepStrip cfg inp σ j) hrest
    constructor
    · intro i hi
      rcases List.mem_cons.mp hi with rfl | hi'
      · rw [runOrder_cons, ih2 i hj]
        simp [stepStrip]
      · have hij : i ≠ j := fun h => hj (h ▸ hi')
        rw [runOrder_cons, ih1 i hi']
        rw [show stepStrip cfg inp σ j i = σ i from
          Function.update_noteq hij _ _]
    · intro i hi
      rw [List.mem_cons, not_or] at hi
      rw [runOrder_cons, ih2 i hi.2]
      exact Function.update_noteq hi.1 _ _

/-- C9: the per-strip update is deterministic and reads only the strip's
own slot plus the shared input: running one frame over any duplicate-free
order of the strip indices gives each listed strip
`update cfg (mkLayout cfg i) (σ i) inp` — independent of the order —
leaves unlisted slots untouched, and any two duplicate-free orders with
the same members produce identical per-strip results. -/
theorem C9_order_independence (cfg : WallConfig) (inp : InputSample)
    (σ : ℕ → StripSmoothingState) (order order' : List ℕ)
    (h : order.Nodup) (h' : order'.Nodup)
    (hmem : ∀ i, i ∈ order ↔ i ∈ order') :
    (∀ i ∈ order, runOrder cfg inp order σ i =
      update cfg (mkLayout cfg i) (σ i) inp) ∧
    (∀ i, i ∉ order → runOrder cfg inp order σ i = σ i) ∧
    runOrder cfg inp order σ = runOrder cfg inp order' σ := by
  obtain ⟨h1, h2⟩ := runOrder_sound cfg inp order σ h
  obtain ⟨h1', h2'⟩ := runOrder_sound cfg inp order' σ h'
  refine ⟨h1, h2, funext fun i => ?_⟩
  by_cases hi : i ∈ order
  · rw [h1 i hi, h1' i ((hmem i).mp hi)]
  · rw [h2 i hi, h2' i (fun hc => hi ((hmem i).mpr hc))]

/-- C9 witness: a two-strip frame run in the orders `[0, 1]` and `[1, 0]`
gives identical per-strip results. -/
theorem C9_witness :
    runOrder cfg48 inpC6 [0, 1] (fun _ => sZero) =
      runOrder cfg48 inpC6 [1, 0] (fun _ => sZero) :=
  (C9_order_independence cfg48 inpC6 (fun _ => sZero) [0, 1] [1, 0]
    (by decide) (by decide)
    (fun i => by simp [List.mem_cons, or_comm])).2.2

end

end FoldingWall
